import Mathlib

/-!
Shallow embedding of the transcript normalization engine of the
ai-transcripts repository.

Modelling conventions:

* A line of the streaming input is abstracted to `Line`: either it trims to
  the empty string (`blank`), it is not valid JSON (`malformed`), or it parses
  to a structured record (`record r`).  Record fields that the raw JSON may
  omit are `Option`-valued, because the TypeScript code reads them off an
  unchecked `JSON.parse` result.
* JavaScript truthiness of strings and numbers (empty string and zero are
  falsy) is modelled explicitly by the `strTruthy` / `jsOrStr` / `jsOrNat`
  helpers.
* A JavaScript `TypeError` escaping a function (e.g. reading `.role` of
  `undefined`, or iterating `undefined` with for..of) is modelled with
  `Except Unit`: `.error ()` marks the throw.  Mutations of the parser object
  performed before the throw persist, so the stepping functions always return
  the updated state alongside the `Except` result.
* Each call of a format.ts rendering function is modelled as one canonical
  `Event`; the rendered text itself (emoji tag + payload) is not re-modelled,
  so an event may render to the empty string (`formatUserMessage` of
  whitespace) without that affecting event counts.  `Event.toolOutcome`
  additionally carries the resolved call id, which is in scope at the
  emission site in `processToolResult` and is ghost data for correlation
  bookkeeping only.
* A JavaScript `Map` whose iteration order is never observed (the parser's
  `pendingTools`) is modelled as an association list with get/set/delete;
  a JavaScript `Set` (insertion ordered, duplicate free) as a `List String`
  grown by `addSet`.
-/

namespace Transcripts

/-- Truthiness of an optional JS string: undefined and the empty string are falsy. -/
def strTruthy : Option String → Bool
  | some s => s ≠ ""
  | none => false

/-- JS `a || b` on an optional string (empty string falls through to the default). -/
def jsOrStr : Option String → String → String
  | some s, d => if s = "" then d else s
  | none, d => d

/-- JS `a || undefined` (and `a || null`) on an optional string. -/
def jsOrNone : Option String → Option String
  | some s => if s = "" then none else some s
  | none => none

/-- JS `a || b` on an optional number (0 is falsy). -/
def jsOrNat : Option Nat → Nat → Nat
  | some n, d => if n = 0 then d else n
  | none, d => d

/-- Prefix test on character lists. -/
def charsPrefix : List Char → List Char → Bool
  | [], _ => true
  | _ :: _, [] => false
  | p :: ps, c :: cs => (p == c) && charsPrefix ps cs

/-- JS `s.startsWith(pre)`, computed over the character lists so that it
reduces inside the kernel (the byte-position-based `String.startsWith` gets
stuck there). -/
def jsStartsWith (s pre : String) : Bool :=
  charsPrefix pre.data s.data

/-- JS `Set.add` on an insertion-ordered duplicate-free list. -/
def addSet (s : List String) (x : String) : List String :=
  if x ∈ s then s else s ++ [x]

/-- Tool-call argument object; only the `file_path` key is inspected by the
statistics logic (the rest of the record is opaque to the claims). -/
structure ToolInput where
  file_path : Option String
deriving Repr, DecidableEq

/-- types.ts `ToolUseBlock`. -/
structure ToolUseBlock where
  id : String
  name : String
  input : ToolInput
deriving Repr, DecidableEq

/-- types.ts `ToolResultBlock` (the `content` payload is never read by parse.ts). -/
structure ToolResultBlock where
  tool_use_id : String
  is_error : Bool
deriving Repr, DecidableEq

/-- types.ts `ContentBlock`, with the declared (non-optional) field types.
The raw JSON can also omit a declared block field — e.g. a text block with no
`text` string — and parse.ts then throws a TypeError (`block.text.startsWith`
in the user loop, `text.trim` inside formatAssistantText in the assistant
loop).  Such blocks fall outside this type, so the exception analysis of
claim C3 states its no-throw guarantee only for lines that fail to parse as
structured records, never for block arrays. -/
inductive ContentBlock
  | text (t : String)
  | thinking
  | tool_use (b : ToolUseBlock)
  | tool_result (b : ToolResultBlock)
deriving Repr, DecidableEq

/-- types.ts `TokenUsage`. -/
structure TokenUsage where
  input_tokens : Nat
  output_tokens : Nat
  cache_creation_input_tokens : Option Nat
  cache_read_input_tokens : Option Nat
deriving Repr, DecidableEq

/-- The runtime shape of `record.message.content`: a string, an array of
blocks, or anything else (undefined, null, a number, ...) which throws when
iterated with for..of. -/
inductive MessageContent
  | ofString (s : String)
  | ofBlocks (blocks : List ContentBlock)
  | undef
deriving Repr, DecidableEq

/-- The runtime shape of `record.message`; the fields the code reads. -/
structure Message where
  role : Option String
  content : MessageContent
  model : Option String
  usage : Option TokenUsage
deriving Repr, DecidableEq

/-- types.ts `SessionRecord`, as it arrives from an unchecked `JSON.parse`:
every field may be absent.  `content` is the payload of a queue-operation
record. -/
structure SessionRecord where
  type : Option String
  isMeta : Bool
  timestamp : Option String
  sessionId : Option String
  cwd : Option String
  version : Option String
  gitBranch : Option String
  message : Option Message
  content : Option String
deriving Repr, DecidableEq

/-- types.ts `PendingTool`. -/
structure PendingTool where
  name : String
  input : ToolInput
deriving Repr, DecidableEq

/-- types.ts `SessionMetadata`, built from raw record fields. -/
structure SessionMetadata where
  sessionId : Option String
  project : Option String
  started : Option String
  version : Option String
  gitBranch : Option String
deriving Repr, DecidableEq

/-- types.ts `SessionStats`. -/
structure SessionStats where
  userMessages : Nat
  assistantMessages : Nat
  toolCalls : Nat
  toolErrors : Nat
  inputTokens : Nat
  outputTokens : Nat
  cacheCreationTokens : Nat
  cacheReadTokens : Nat
  filesRead : List String
  filesWritten : List String
  filesEdited : List String
  lastTimestamp : Option String
deriving Repr, DecidableEq

/-- One canonical event: one invocation of a format.ts rendering function. -/
inductive Event
  | metadata (m : SessionMetadata)
  | user (text : String)
  | assistant (text : String)
  | modelChange (model : String)
  | toolOutcome (callId : String) (name : String) (input : ToolInput) (isError : Bool)
  | queue (content : String)
deriving Repr, DecidableEq

/-- `Map.get` on the pending-tools association list. -/
def mapGet (m : List (String × PendingTool)) (k : String) : Option PendingTool :=
  (m.find? (fun p => p.1 == k)).map Prod.snd

/-- `Map.delete` on the pending-tools association list. -/
def mapDel (m : List (String × PendingTool)) (k : String) : List (String × PendingTool) :=
  m.filter (fun p => p.1 != k)

/-- `Map.set` on the pending-tools association list (iteration order is never
observed by parse.ts, so re-inserting at the end is observationally equal). -/
def mapSet (m : List (String × PendingTool)) (k : String) (v : PendingTool) :
    List (String × PendingTool) :=
  mapDel m k ++ [(k, v)]

/-- The state of parse.ts `TranscriptParser`. -/
structure TranscriptParser where
  pendingTools : List (String × PendingTool)
  metadata : Option SessionMetadata
  metadataEmitted : Bool
  currentModel : Option String
  stats : SessionStats
deriving Repr, DecidableEq

/-- The zero-initialised statistics of a fresh `TranscriptParser`. -/
def SessionStats.init : SessionStats :=
  { userMessages := 0, assistantMessages := 0, toolCalls := 0, toolErrors := 0,
    inputTokens := 0, outputTokens := 0, cacheCreationTokens := 0, cacheReadTokens := 0,
    filesRead := [], filesWritten := [], filesEdited := [], lastTimestamp := none }

/-- A fresh `TranscriptParser`. -/
def TranscriptParser.init : TranscriptParser :=
  { pendingTools := [], metadata := none, metadataEmitted := false,
    currentModel := none, stats := SessionStats.init }

/-- parse.ts `processToolResult`. -/
def TranscriptParser.processToolResult (st : TranscriptParser) (b : ToolResultBlock) :
    TranscriptParser × List Event :=
  match mapGet st.pendingTools b.tool_use_id with
  | none => (st, [])
  | some pending =>
    let pt := mapDel st.pendingTools b.tool_use_id
    let s1 := { st.stats with
      toolCalls := st.stats.toolCalls + 1,
      toolErrors := st.stats.toolErrors + (if b.is_error then 1 else 0) }
    let s2 :=
      match pending.input.file_path with
      | some fp =>
        if fp ≠ "" ∧ b.is_error = false then
          if pending.name = "Read" then { s1 with filesRead := addSet s1.filesRead fp }
          else if pending.name = "Write" then { s1 with filesWritten := addSet s1.filesWritten fp }
          else if pending.name = "Edit" then { s1 with filesEdited := addSet s1.filesEdited fp }
          else s1
        else s1
      | none => s1
    ({ st with pendingTools := pt, stats := s2 },
     [Event.toolOutcome b.tool_use_id pending.name pending.input b.is_error])

/-- The user-record content-block loop of parse.ts `parseUserRecord`; the Bool
is the `hasUserContent` flag. -/
def TranscriptParser.userBlocks :
    TranscriptParser → List ContentBlock → TranscriptParser × List Event × Bool
  | st, [] => (st, [], false)
  | st, ContentBlock.text t :: rest =>
    if jsStartsWith t "<" then TranscriptParser.userBlocks st rest
    else
      let (st', evs, _) := TranscriptParser.userBlocks st rest
      (st', Event.user t :: evs, true)
  | st, ContentBlock.tool_result rb :: rest =>
    let (st1, evs1) := st.processToolResult rb
    let (st2, evs2, has) := TranscriptParser.userBlocks st1 rest
    (st2, evs1 ++ evs2, has)
  | st, _ :: rest => TranscriptParser.userBlocks st rest

/-- parse.ts `parseUserRecord`.  Reading `.role` off an absent `message`, or
iterating a content value that is neither a string nor an array, throws. -/
def TranscriptParser.parseUserRecord (st : TranscriptParser) (r : SessionRecord) :
    TranscriptParser × Except Unit (List Event) :=
  if r.isMeta then (st, .ok [])
  else
    match r.message with
    | none => (st, .error ())
    | some m =>
      if m.role = some "user" then
        match m.content with
        | .ofString s =>
          if jsStartsWith s "<" then (st, .ok [])
          else
            ({ st with stats := { st.stats with userMessages := st.stats.userMessages + 1 } },
             .ok [Event.user s])
        | .ofBlocks bs =>
          let (st', evs, has) := TranscriptParser.userBlocks st bs
          if has then
            ({ st' with stats := { st'.stats with userMessages := st'.stats.userMessages + 1 } },
             .ok evs)
          else (st', .ok evs)
        | .undef => (st, .error ())
      else (st, .ok [])

/-- The assistant-record content-block loop of parse.ts `parseAssistantRecord`;
the Bool is the `hasTextContent` flag.  Assistant-side `tool_result` and
`thinking` blocks are skipped. -/
def TranscriptParser.assistantBlocks :
    TranscriptParser → List ContentBlock → TranscriptParser × List Event × Bool
  | st, [] => (st, [], false)
  | st, ContentBlock.text t :: rest =>
    let (st', evs, _) := TranscriptParser.assistantBlocks st rest
    (st', Event.assistant t :: evs, true)
  | st, ContentBlock.tool_use tb :: rest =>
    TranscriptParser.assistantBlocks
      { st with pendingTools := mapSet st.pendingTools tb.id { name := tb.name, input := tb.input } }
      rest
  | st, _ :: rest => TranscriptParser.assistantBlocks st rest

/-- The model-change check of parse.ts lines 134-139: emit only when a truthy
model id differs from the last observed one and is not the "no model"
sentinel. -/
def TranscriptParser.modelChangeStep (st : TranscriptParser) (mo : Option String) :
    TranscriptParser × List Event :=
  match mo with
  | some x =>
    if x ≠ "" ∧ x ≠ "<synthetic>" ∧ some x ≠ st.currentModel then
      ({ st with currentModel := some x }, [Event.modelChange x])
    else (st, [])
  | none => (st, [])

/-- The token-usage accounting of parse.ts lines 141-153. -/
def TranscriptParser.usageStep (st : TranscriptParser) (uo : Option TokenUsage) :
    TranscriptParser :=
  match uo with
  | some u =>
    { st with stats := { st.stats with
        inputTokens := st.stats.inputTokens + u.input_tokens,
        outputTokens := st.stats.outputTokens + u.output_tokens,
        cacheCreationTokens := st.stats.cacheCreationTokens + u.cache_creation_input_tokens.getD 0,
        cacheReadTokens := st.stats.cacheReadTokens + u.cache_read_input_tokens.getD 0 } }
  | none => st

/-- parse.ts `parseAssistantRecord`.  Iterating a string content with for..of
visits its characters, none of which carries a `.type`, so a string content is
a no-op; an absent/other content throws.  The model-change check and the token
accounting happen before the content loop, so their state updates survive a
later throw. -/
def TranscriptParser.parseAssistantRecord (st : TranscriptParser) (r : SessionRecord) :
    TranscriptParser × Except Unit (List Event) :=
  match r.message with
  | none => (st, .error ())
  | some m =>
    if m.role = some "assistant" then
      let stEv := st.modelChangeStep m.model
      let st1 := stEv.1
      let evsModel := stEv.2
      let st2 := st1.usageStep m.usage
      match m.content with
      | .ofString _ => (st2, .ok evsModel)
      | .undef => (st2, .error ())
      | .ofBlocks bs =>
        let (st3, evs, has) := TranscriptParser.assistantBlocks st2 bs
        if has then
          ({ st3 with stats := { st3.stats with assistantMessages := st3.stats.assistantMessages + 1 } },
           .ok (evsModel ++ evs))
        else (st3, .ok (evsModel ++ evs))
    else (st, .ok [])

/-- parse.ts `parseQueueOperation`. -/
def TranscriptParser.parseQueueOperation (st : TranscriptParser) (r : SessionRecord) :
    TranscriptParser × List Event :=
  match r.content with
  | some c => if c = "" then (st, []) else (st, [Event.queue c])
  | none => (st, [])

/-- The metadata captured from the first record (parse.ts lines 52-61). -/
def SessionRecord.recordMetadata (r : SessionRecord) : SessionMetadata :=
  { sessionId := r.sessionId, project := r.cwd, started := r.timestamp,
    version := r.version, gitBranch := jsOrNone r.gitBranch }

/-- One input line, after JSON classification: blank after trimming, not
valid JSON, or a structured record. -/
inductive Line
  | blank
  | malformed
  | record (r : SessionRecord)
deriving Repr, DecidableEq

/-- The metadata capture of parse.ts lines 52-61: the first record fixes the
session metadata. -/
def TranscriptParser.captureMetadata (st : TranscriptParser) (r : SessionRecord) :
    TranscriptParser :=
  if st.metadata.isNone then { st with metadata := some r.recordMetadata } else st

/-- The metadata-header emission of parse.ts lines 65-69: emitted once, before
the first content-bearing event. -/
def TranscriptParser.emitMetadataStep (st : TranscriptParser) :
    TranscriptParser × List Event :=
  if st.metadataEmitted = false then
    match st.metadata with
    | some md => ({ st with metadataEmitted := true }, [Event.metadata md])
    | none => (st, [])
  else (st, [])

/-- parse.ts `TranscriptParser.parse` for one line.  On a throw the state
mutations already performed persist but the returned output is lost. -/
def TranscriptParser.parse (st : TranscriptParser) (l : Line) :
    TranscriptParser × Except Unit (List Event) :=
  match l with
  | .blank => (st, .ok [])
  | .malformed => (st, .ok [])
  | .record r =>
    let st1 := st.captureMetadata r
    let stEv := st1.emitMetadataStep
    let st2 := stEv.1
    let evs0 := stEv.2
    let st3 := { st2 with stats := { st2.stats with lastTimestamp := r.timestamp } }
    if r.type = some "user" then
      let res := st3.parseUserRecord r
      (res.1, res.2.map (fun evs => evs0 ++ evs))
    else if r.type = some "assistant" then
      let res := st3.parseAssistantRecord r
      (res.1, res.2.map (fun evs => evs0 ++ evs))
    else if r.type = some "queue-operation" then
      let res := st3.parseQueueOperation r
      (res.1, .ok (evs0 ++ res.2))
    else
      (st3, .ok evs0)

/-- parse.ts `finalize`: no summary for an empty session, otherwise the
summary is the statistics record paired with the start timestamp passed to
`formatSummary`. -/
def TranscriptParser.finalize (st : TranscriptParser) :
    Option (SessionStats × Option String) :=
  if st.stats.userMessages = 0 ∧ st.stats.assistantMessages = 0 then none
  else some (st.stats, jsOrNone (st.metadata.bind SessionMetadata.started))

/-- batch.ts `processFile` line loop: feed every line, concatenating the
outputs; a throw aborts the run (the Bool is false) and discards the events
of the throwing call, while the state reached persists. -/
def runLines : TranscriptParser → List Line → TranscriptParser × List Event × Bool
  | st, [] => (st, [], true)
  | st, l :: ls =>
    match st.parse l with
    | (st', Except.error _) => (st', [], false)
    | (st', Except.ok evs) =>
      let (stEnd, evs', ok) := runLines st' ls
      (stEnd, evs ++ evs', ok)

namespace OpenCode

/-- opencode/types.ts `OpenCodeSession.time`. -/
structure OpenCodeSessionTime where
  created : Nat
  updated : Nat
deriving Repr, DecidableEq

/-- opencode/types.ts `OpenCodeSession` (fields read by parse.ts). -/
structure OpenCodeSession where
  id : String
  directory : String
  title : String
  time : OpenCodeSessionTime
deriving Repr, DecidableEq

/-- opencode/types.ts `OpenCodeMessage.time`. -/
structure OpenCodeMessageTime where
  created : Nat
  completed : Option Nat
deriving Repr, DecidableEq

/-- opencode/types.ts `OpenCodeMessage.tokens`. -/
structure OpenCodeTokens where
  input : Nat
  output : Nat
  reasoning : Nat
deriving Repr, DecidableEq

/-- opencode/types.ts `OpenCodeMessage` (fields read by parse.ts).  The
floating-point `cost` figure is modelled over the rationals. -/
structure OpenCodeMessage where
  id : String
  role : String
  time : OpenCodeMessageTime
  modelID : Option String
  tokens : Option OpenCodeTokens
  cost : Option ℚ
deriving Repr, DecidableEq

/-- The `filePath` key of a tool part's input record. -/
structure OpenCodePartInput where
  filePath : Option String
deriving Repr, DecidableEq

/-- opencode/types.ts `OpenCodePart.state.metadata` (fields read by parse.ts). -/
structure OpenCodePartMeta where
  exit : Option Int
  description : Option String
deriving Repr, DecidableEq

/-- opencode/types.ts `OpenCodePart.state` (fields read by parse.ts). -/
structure OpenCodePartState where
  status : String
  input : Option OpenCodePartInput
  title : Option String
  metadata : Option OpenCodePartMeta
deriving Repr, DecidableEq

/-- opencode/types.ts `OpenCodePart` (fields read by parse.ts). -/
structure OpenCodePart where
  id : String
  messageID : String
  type : String
  text : Option String
  synthetic : Bool
  tool : Option String
  state : Option OpenCodePartState
deriving Repr, DecidableEq

/-- opencode/types.ts `OpenCodeSessionData`; the part map keyed by message id
is an association list. -/
structure OpenCodeSessionData where
  session : OpenCodeSession
  messages : List OpenCodeMessage
  parts : List (String × List OpenCodePart)
deriving Repr, DecidableEq

/-- JS `parts.get(msg.id) || []`. -/
def partsGet (parts : List (String × List OpenCodePart)) (k : String) : List OpenCodePart :=
  ((parts.find? (fun p => p.1 == k)).map Prod.snd).getD []

/-- opencode/types.ts `OpenCodeStats`. -/
structure OpenCodeStats where
  userMessages : Nat
  assistantMessages : Nat
  toolCalls : Nat
  toolErrors : Nat
  inputTokens : Nat
  outputTokens : Nat
  totalCost : ℚ
  filesRead : List String
  filesWritten : List String
  lastTimestamp : Option Nat
deriving Repr, DecidableEq

/-- The zero-initialised statistics of opencode/parse.ts `formatSession`. -/
def OpenCodeStats.init : OpenCodeStats :=
  { userMessages := 0, assistantMessages := 0, toolCalls := 0, toolErrors := 0,
    inputTokens := 0, outputTokens := 0, totalCost := 0,
    filesRead := [], filesWritten := [], lastTimestamp := none }

/-- One output line of opencode/parse.ts `formatSession` as a canonical event;
the summary event carries the statistics handed to its `formatSummary`. -/
inductive OCEvent
  | header (sessionId : String) (directory : String) (started : Nat) (title : Option String)
  | model (id : String)
  | user (text : String)
  | assistant (text : String)
  | tool (name : String) (desc : String) (isError : Bool)
  | summary (stats : OpenCodeStats) (started : Nat)
deriving Repr, DecidableEq

/-- opencode/parse.ts line 170: a tool part is an error exactly when
`state.metadata?.exit !== 0 && state.metadata?.exit !== undefined`. -/
def toolIsError (s : OpenCodePartState) : Bool :=
  decide (s.metadata.bind OpenCodePartMeta.exit ≠ some 0 ∧
          s.metadata.bind OpenCodePartMeta.exit ≠ none)

/-- opencode/parse.ts line 175: `state.title || state.metadata?.description || ""`. -/
def toolDesc (s : OpenCodePartState) : String :=
  jsOrStr s.title (jsOrStr (s.metadata.bind OpenCodePartMeta.description) "")

/-- One iteration of the user-role text-part loop (opencode/parse.ts
lines 148-159); the part has already passed the `type === "text" && text`
filter. -/
def userPartStep (stats : OpenCodeStats) (p : OpenCodePart) : OpenCodeStats × List OCEvent :=
  if p.synthetic then (stats, [])
  else if jsStartsWith (p.text.getD "") "<file>" then (stats, [])
  else if jsStartsWith (p.text.getD "") "Called the" then (stats, [])
  else
    let t := (p.text.getD "").trim
    if t ≠ "" then
      ({ stats with userMessages := stats.userMessages + 1 }, [OCEvent.user t])
    else (stats, [])

/-- The user-role text-part loop. -/
def userParts : OpenCodeStats → List OpenCodePart → OpenCodeStats × List OCEvent
  | stats, [] => (stats, [])
  | stats, p :: rest =>
    let (s1, e1) := userPartStep stats p
    let (s2, e2) := userParts s1 rest
    (s2, e1 ++ e2)

/-- One iteration of the assistant-role part loop (opencode/parse.ts
lines 163-189). -/
def assistantPartStep (stats : OpenCodeStats) (p : OpenCodePart) : OpenCodeStats × List OCEvent :=
  if p.type = "text" ∧ strTruthy p.text = true then
    ({ stats with assistantMessages := stats.assistantMessages + 1 },
     [OCEvent.assistant ((p.text.getD "").trim)])
  else if p.type = "tool" then
    match p.state with
    | some s =>
      let err := toolIsError s
      let stats1 := { stats with
        toolCalls := stats.toolCalls + 1,
        toolErrors := stats.toolErrors + (if err then 1 else 0) }
      let toolName := jsOrStr p.tool "unknown"
      let desc0 := toolDesc s
      let desc := if desc0.length > 100 then desc0.take 100 ++ "..." else desc0
      let stats2 :=
        if toolName = "read" then
          match s.input with
          | some inp =>
            match inp.filePath with
            | some path =>
              if path ≠ "" then { stats1 with filesRead := addSet stats1.filesRead path }
              else stats1
            | none => stats1
          | none => stats1
        else if toolName = "write" then
          match s.input with
          | some inp =>
            match inp.filePath with
            | some path =>
              if path ≠ "" then { stats1 with filesWritten := addSet stats1.filesWritten path }
              else stats1
            | none => stats1
          | none => stats1
        else stats1
      (stats2, [OCEvent.tool toolName desc err])
    | none => (stats, [])
  else (stats, [])

/-- The assistant-role part loop. -/
def assistantParts : OpenCodeStats → List OpenCodePart → OpenCodeStats × List OCEvent
  | stats, [] => (stats, [])
  | stats, p :: rest =>
    let (s1, e1) := assistantPartStep stats p
    let (s2, e2) := assistantParts s1 rest
    (s2, e1 ++ e2)

/-- The model-change check of opencode/parse.ts lines 138-142: emit whenever
a truthy model id differs from the previously observed one (note: no sentinel
exclusion here, unlike the streaming adapter). -/
def modelEvents (cm : Option String) (mid : Option String) :
    Option String × List OCEvent :=
  match mid with
  | some x =>
    if x ≠ "" ∧ some x ≠ cm then ((some x : Option String), [OCEvent.model x])
    else (cm, [])
  | none => (cm, [])

/-- The body of `formatSession`'s message loop for one message: timestamp,
token, cost and model bookkeeping, then the role-specific part loop. -/
def processMessage (parts : List (String × List OpenCodePart))
    (cm : Option String) (stats : OpenCodeStats) (msg : OpenCodeMessage) :
    (Option String × OpenCodeStats) × List OCEvent :=
  let stats := { stats with lastTimestamp := some (jsOrNat msg.time.completed msg.time.created) }
  let stats :=
    match msg.tokens with
    | some t => { stats with inputTokens := stats.inputTokens + t.input,
                             outputTokens := stats.outputTokens + t.output }
    | none => stats
  let stats :=
    match msg.cost with
    | some c => if c ≠ 0 then { stats with totalCost := stats.totalCost + c } else stats
    | none => stats
  let cmEv := modelEvents cm msg.modelID
  let cm1 := cmEv.1
  let evsModel := cmEv.2
  let msgParts := partsGet parts msg.id
  if msg.role = "user" then
    let filtered := msgParts.filter (fun p => p.type == "text" && strTruthy p.text)
    let res := userParts stats filtered
    ((cm1, res.1), evsModel ++ res.2)
  else if msg.role = "assistant" then
    let res := assistantParts stats msgParts
    ((cm1, res.1), evsModel ++ res.2)
  else
    ((cm1, stats), evsModel)

/-- The message loop of `formatSession`. -/
def processMessages (parts : List (String × List OpenCodePart)) :
    Option String × OpenCodeStats → List OpenCodeMessage →
    (Option String × OpenCodeStats) × List OCEvent
  | s, [] => (s, [])
  | s, m :: rest =>
    let r1 := processMessage parts s.1 s.2 m
    let r2 := processMessages parts r1.1 rest
    (r2.1, r1.2 ++ r2.2)

/-- The comparator of opencode/parse.ts line 73: ascending `time.created`. -/
def msgLE (a b : OpenCodeMessage) : Prop :=
  a.time.created ≤ b.time.created

instance : DecidableRel msgLE := fun a b => Nat.decLe a.time.created b.time.created

/-- The pure core of opencode/parse.ts `loadMessages`: the enumerated message
files (in arbitrary file-system order) are sorted by creation time before
being returned.  JS Array.sort is a stable sort, and all stable sorts of a
list under one total preorder produce the same output, so it is modelled by a
structural stable sort. -/
def loadMessages (files : List OpenCodeMessage) : List OpenCodeMessage :=
  files.insertionSort msgLE

/-- The header lines of `formatSession` (session id, project directory, start
time, optional title). -/
def headerEvents (s : OpenCodeSession) : List OCEvent :=
  [OCEvent.header s.id s.directory s.time.created (if s.title ≠ "" then some s.title else none)]

/-- opencode/parse.ts `formatSession`: header, message replay in list order,
then unconditionally the summary built from the final statistics. -/
def formatSession (data : OpenCodeSessionData) : List OCEvent :=
  let res := processMessages data.parts (none, OpenCodeStats.init) data.messages
  headerEvents data.session ++ res.2 ++ [OCEvent.summary res.1.2 data.session.time.created]

end OpenCode

/-- Whether one parsing step returned normally (no JS exception escaped). -/
def stepOk (x : TranscriptParser × Except Unit (List Event)) : Bool :=
  match x.2 with
  | Except.ok _ => true
  | Except.error _ => false

/-- Recognises the `ToolOutcome` events of a given call id. -/
def isOutcomeFor (c : String) : Event → Bool
  | Event.toolOutcome id _ _ _ => id == c
  | _ => false

/-- How many `ToolOutcome` events of a given call id a list of events holds. -/
def countOutcomes (c : String) (evs : List Event) : Nat :=
  (evs.filter (isOutcomeFor c)).length

/-- Whether a content block is a tool result for the given call id. -/
def blockHasResultFor (c : String) : ContentBlock → Bool
  | ContentBlock.tool_result rb => rb.tool_use_id == c
  | _ => false

/-- Whether an input line carries a tool result for the given call id. -/
def lineHasResultFor (c : String) : Line → Bool
  | Line.record r =>
    match r.message with
    | some m =>
      match m.content with
      | MessageContent.ofBlocks bs => bs.any (blockHasResultFor c)
      | _ => false
    | none => false
  | _ => false

/-- A structurally valid JSON record of type "user" with no `message` object,
on which parse.ts throws a TypeError (claim C3). -/
def recNoMsg : SessionRecord :=
  { type := some "user", isMeta := false, timestamp := none, sessionId := none,
    cwd := none, version := none, gitBranch := none, message := none, content := none }

/-- A meta user record: parseable, establishes metadata, contributes no turn
(claim C9). -/
def recMetaOnly : SessionRecord :=
  { type := some "user", isMeta := true, timestamp := some "2025-01-01T00:00:00Z",
    sessionId := some "sess-1", cwd := some "/prj", version := some "2.0",
    gitBranch := none, message := none, content := none }

/-- Assistant record requesting a `Read` of path `p` under call id `c`
(claim C6 scenario). -/
def readRequestMessage (c p : String) : Message :=
  { role := some "assistant",
    content := MessageContent.ofBlocks
      [ContentBlock.tool_use { id := c, name := "Read", input := { file_path := some p } }],
    model := none, usage := none }

/-- The record wrapping `readRequestMessage`. -/
def readRequestRecord (c p : String) : SessionRecord :=
  { type := some "assistant", isMeta := false, timestamp := some "t",
    sessionId := some "s", cwd := some "/prj", version := some "1", gitBranch := none,
    message := some (readRequestMessage c p), content := none }

/-- User record carrying one text block and the successful result of call `c`
(claim C6 scenario). -/
def readResultMessage (c : String) : Message :=
  { role := some "user",
    content := MessageContent.ofBlocks
      [ContentBlock.text "ok", ContentBlock.tool_result { tool_use_id := c, is_error := false }],
    model := none, usage := none }

/-- The record wrapping `readResultMessage`. -/
def readResultRecord (c : String) : SessionRecord :=
  { type := some "user", isMeta := false, timestamp := some "t",
    sessionId := some "s", cwd := some "/prj", version := some "1", gitBranch := none,
    message := some (readResultMessage c), content := none }

/-- One request/resolve round trip for a successful `Read` of `p`. -/
def readPair (c p : String) : List Line :=
  [Line.record (readRequestRecord c p), Line.record (readResultRecord c)]

/-- `n` identical successful `Read` round trips of the same path. -/
def readSession (c p : String) : Nat → List Line
  | 0 => []
  | n + 1 => readPair c p ++ readSession c p n

/-- A parser state holding one pending `Glob` invocation under call id c9
(claims C1/C4 witnesses). -/
def stPendingGlob : TranscriptParser :=
  { pendingTools := [("c9", { name := "Glob", input := { file_path := none } })],
    metadata := none, metadataEmitted := false, currentModel := none,
    stats := SessionStats.init }

/-- An assistant record observing model `m-a` with a plain text block
(claim C5 witness). -/
def recModelA : SessionRecord :=
  { type := some "assistant", isMeta := false, timestamp := some "t",
    sessionId := some "s", cwd := some "/prj", version := some "1", gitBranch := none,
    message := some { role := some "assistant", content := MessageContent.ofBlocks [ContentBlock.text "hi"],
                      model := some "m-a", usage := none },
    content := none }

namespace OpenCode

/-- A concrete untitled session (shared by the opencode counterexamples). -/
def sess0 : OpenCodeSession :=
  { id := "s1", directory := "/d", title := "", time := { created := 100, updated := 100 } }

/-- An assistant message whose model id is the streaming sentinel value
(claim C5 counterexample). -/
def msgSyn : OpenCodeMessage :=
  { id := "m1", role := "assistant", time := { created := 100, completed := none },
    modelID := some "<synthetic>", tokens := none, cost := none }

/-- Session data with a single sentinel-model assistant message and no parts. -/
def dataSyn : OpenCodeSessionData :=
  { session := sess0, messages := [msgSyn], parts := [] }

/-- A user message with no parts: its session yields zero user and zero
assistant turns (claim C2 counterexample). -/
def msgNoParts : OpenCodeMessage :=
  { id := "m1", role := "user", time := { created := 100, completed := none },
    modelID := none, tokens := none, cost := none }

/-- A zero-turn fragmented session. -/
def dataNoTurns : OpenCodeSessionData :=
  { session := sess0, messages := [msgNoParts], parts := [] }

/-- The statistics of `dataNoTurns` after the message loop. -/
def statsNoTurns : OpenCodeStats :=
  { OpenCodeStats.init with lastTimestamp := some 100 }

/-- The resolved state of a failed tool part: exit code 1, filePath input
(claims C8/C10 witnesses). -/
def stateReadFail : OpenCodePartState :=
  { status := "completed", input := some { filePath := some "/tmp/a" },
    title := some "reading a", metadata := some { exit := some 1, description := none } }

/-- The resolved state of a failed write tool part (claim C10 witness). -/
def stateWriteFail : OpenCodePartState :=
  { status := "completed", input := some { filePath := some "/tmp/b" },
    title := some "writing b", metadata := some { exit := some 1, description := none } }

/-- A failed `read` tool part (exit code 1) carrying a filePath input
(claims C8/C10 witnesses). -/
def partReadFail : OpenCodePart :=
  { id := "p1", messageID := "m1", type := "tool", text := none, synthetic := false,
    tool := some "read", state := some stateReadFail }

/-- A failed `write` tool part (exit code 1) carrying a filePath input
(claim C10 witness). -/
def partWriteFail : OpenCodePart :=
  { id := "p2", messageID := "m1", type := "tool", text := none, synthetic := false,
    tool := some "write", state := some stateWriteFail }

/-- A message created at time 100 (claim C7 witness). -/
def msgEarly : OpenCodeMessage :=
  { id := "mE", role := "user", time := { created := 100, completed := none },
    modelID := none, tokens := none, cost := none }

/-- A message created at time 200 (claim C7 witness). -/
def msgLate : OpenCodeMessage :=
  { id := "mL", role := "user", time := { created := 200, completed := none },
    modelID := none, tokens := none, cost := none }

end OpenCode

end Transcripts

namespace Transcripts

lemma mapGet_mapDel_self (m : List (String × PendingTool)) (k : String) :
    mapGet (mapDel m k) k = none := by
  unfold mapGet
  rw [Option.map_eq_none', List.find?_eq_none]
  intro x hx
  rw [mapDel, List.mem_filter] at hx
  have hne : x.1 ≠ k := bne_iff_ne.mp hx.2
  simp [hne]

lemma mapGet_mapSet_self (m : List (String × PendingTool)) (k : String) (v : PendingTool) :
    mapGet (mapSet m k v) k = some v := by
  unfold mapGet mapSet
  rw [List.find?_append]
  have h1 : (mapDel m k).find? (fun p => p.1 == k) = none := by
    have := mapGet_mapDel_self m k
    unfold mapGet at this
    exact Option.map_eq_none'.mp this
  rw [h1]
  simp

lemma countOutcomes_nil (c : String) : countOutcomes c [] = 0 := rfl

lemma countOutcomes_append (c : String) (a b : List Event) :
    countOutcomes c (a ++ b) = countOutcomes c a + countOutcomes c b := by
  unfold countOutcomes
  rw [List.filter_append, List.length_append]

lemma countOutcomes_cons_other (c : String) (e : Event) (evs : List Event)
    (h : isOutcomeFor c e = false) :
    countOutcomes c (e :: evs) = countOutcomes c evs := by
  unfold countOutcomes
  simp [List.filter_cons, h]

end Transcripts

namespace Transcripts

/-- Claim C4: a tool result whose call identifier is not present in the
correlation store emits zero events, changes no statistics counters, and
leaves the adapter state entirely unchanged (the unknown resolution is
silently ignored; the operation is total, so nothing can crash). -/
theorem C4_unknown_result_ignored (st : TranscriptParser) (b : ToolResultBlock)
    (h : mapGet st.pendingTools b.tool_use_id = none) :
    st.processToolResult b = (st, []) := by
  unfold TranscriptParser.processToolResult
  rw [h]

/-- Witness for C4: a fresh parser silently drops a result for an unknown id. -/
theorem C4_unknown_result_ignored_witness :
    mapGet TranscriptParser.init.pendingTools "nope" = none ∧
    TranscriptParser.init.processToolResult { tool_use_id := "nope", is_error := false } =
      (TranscriptParser.init, []) :=
  ⟨rfl, C4_unknown_result_ignored TranscriptParser.init
    { tool_use_id := "nope", is_error := false } rfl⟩

/-- Counterexample for C3: a structurally valid record of type "user" with no
message object makes parse() throw a TypeError (reading `.role` of
undefined), so not every input line returns without an exception. -/
theorem C3_counterexample :
    (TranscriptParser.init.parse (Line.record recNoMsg)).2 = Except.error () := rfl

lemma stepOk_iff (x : TranscriptParser × Except Unit (List Event)) :
    stepOk x = true ↔ ∃ st' evs, x = (st', Except.ok evs) := by
  rcases x with ⟨a, e⟩
  cases e with
  | ok v => exact ⟨fun _ => ⟨a, v, rfl⟩, fun _ => rfl⟩
  | error u =>
    constructor
    · intro h; exact absurd h (by simp [stepOk])
    · rintro ⟨st', evs, h⟩; exact absurd h (by simp)

end Transcripts

namespace Transcripts

open OpenCode

/-- Claim C8: in the fragmented adapter a tool part emits exactly one tool
outcome whose error flag is `toolIsError`, the outcome is a success exactly
when the state metadata carries no exit code or carries exit code zero, every
tool part counts one tool call, and the error counter grows exactly on
failures. -/
theorem C8_exit_code_success (stats : OpenCodeStats) (p : OpenCodePart)
    (s : OpenCodePartState) (hType : p.type = "tool") (hs : p.state = some s) :
    (assistantPartStep stats p).2 =
      [OCEvent.tool (jsOrStr p.tool "unknown")
        (if (toolDesc s).length > 100 then (toolDesc s).take 100 ++ "..." else toolDesc s)
        (toolIsError s)] ∧
    (toolIsError s = false ↔
      (s.metadata.bind OpenCodePartMeta.exit = none ∨
       s.metadata.bind OpenCodePartMeta.exit = some 0)) ∧
    (assistantPartStep stats p).1.toolCalls = stats.toolCalls + 1 ∧
    (assistantPartStep stats p).1.toolErrors =
      stats.toolErrors + (if toolIsError s then 1 else 0) := by
  have hiff : toolIsError s = false ↔
      (s.metadata.bind OpenCodePartMeta.exit = none ∨
       s.metadata.bind OpenCodePartMeta.exit = some 0) := by
    unfold toolIsError
    rcases hx : s.metadata.bind OpenCodePartMeta.exit with _ | n
    · simp
    · by_cases hn : n = 0 <;> simp [hn]
  refine ⟨?_, hiff, ?_, ?_⟩ <;>
  · unfold assistantPartStep
    rw [hType, hs]
    rw [if_neg (by simp)]
    try rw [if_pos rfl]
    try dsimp only
    repeat' split
    all_goals rfl

end Transcripts

namespace Transcripts

open OpenCode

/-- Witness for C8: a read tool part with exit code 1 is counted as one tool
call and classified as a failure. -/
theorem C8_exit_code_success_witness :
    partReadFail.type = "tool" ∧
    partReadFail.state = some stateReadFail ∧
    (assistantPartStep OpenCodeStats.init partReadFail).1.toolCalls =
      OpenCodeStats.init.toolCalls + 1 ∧
    toolIsError stateReadFail = true :=
  ⟨rfl, rfl,
   (C8_exit_code_success OpenCodeStats.init partReadFail stateReadFail rfl rfl).2.2.1,
   by decide⟩

/-- Claim C10: in the fragmented adapter a read/write tool part that carries a
filePath input adds the path to the corresponding file set with no condition
on the exit status — the success-only gate exists only in the streaming
adapter. -/
theorem C10_fragmented_filepath_unconditional (stats : OpenCodeStats) (p : OpenCodePart)
    (s : OpenCodePartState) (inp : OpenCodePartInput) (path : String)
    (hType : p.type = "tool") (hs : p.state = some s) (hi : s.input = some inp)
    (hp : inp.filePath = some path) (hne : path ≠ "") :
    (p.tool = some "read" →
      (assistantPartStep stats p).1.filesRead = addSet stats.filesRead path ∧
      (assistantPartStep stats p).1.filesWritten = stats.filesWritten) ∧
    (p.tool = some "write" →
      (assistantPartStep stats p).1.filesWritten = addSet stats.filesWritten path ∧
      (assistantPartStep stats p).1.filesRead = stats.filesRead) := by
  constructor
  · intro ht
    have hjs : jsOrStr p.tool "unknown" = "read" := by rw [ht]; rfl
    unfold assistantPartStep
    rw [hType, hs]
    rw [if_neg (by simp)]
    try rw [if_pos rfl]
    try dsimp only
    rw [hjs]
    rw [if_pos rfl]
    rw [hi]
    try dsimp only
    rw [hp]
    try dsimp only
    rw [if_pos hne]
    exact ⟨rfl, rfl⟩
  · intro ht
    have hjs : jsOrStr p.tool "unknown" = "write" := by rw [ht]; rfl
    unfold assistantPartStep
    rw [hType, hs]
    rw [if_neg (by simp)]
    try rw [if_pos rfl]
    try dsimp only
    rw [hjs]
    rw [if_neg (by decide)]
    rw [if_pos rfl]
    rw [hi]
    try dsimp only
    rw [hp]
    try dsimp only
    rw [if_pos hne]
    exact ⟨rfl, rfl⟩

/-- Witness for C10: failed (exit 1) read and write parts still record their
paths in the file-touch sets. -/
theorem C10_fragmented_filepath_unconditional_witness :
    toolIsError stateReadFail = true ∧
    (assistantPartStep OpenCodeStats.init partReadFail).1.filesRead =
      addSet OpenCodeStats.init.filesRead "/tmp/a" ∧
    (assistantPartStep OpenCodeStats.init partWriteFail).1.filesWritten =
      addSet OpenCodeStats.init.filesWritten "/tmp/b" :=
  ⟨by decide,
   ((C10_fragmented_filepath_unconditional OpenCodeStats.init partReadFail stateReadFail
      { filePath := some "/tmp/a" } "/tmp/a" rfl rfl rfl rfl (by decide)).1 rfl).1,
   ((C10_fragmented_filepath_unconditional OpenCodeStats.init partWriteFail stateWriteFail
      { filePath := some "/tmp/b" } "/tmp/b" rfl rfl rfl rfl (by decide)).2 rfl).1⟩

end Transcripts

namespace Transcripts

open OpenCode

lemma processToolResult_metadataEmitted (st : TranscriptParser) (b : ToolResultBlock) :
    (st.processToolResult b).1.metadataEmitted = st.metadataEmitted := by
  unfold TranscriptParser.processToolResult
  repeat' split
  all_goals rfl

lemma userBlocks_metadataEmitted (st : TranscriptParser) (bs : List ContentBlock) :
    (TranscriptParser.userBlocks st bs).1.metadataEmitted = st.metadataEmitted := by
  induction bs generalizing st with
  | nil => rfl
  | cons b rest ih =>
    cases b with
    | text t =>
      unfold TranscriptParser.userBlocks
      split
      · exact ih st
      · dsimp only; exact ih st
    | tool_result rb =>
      unfold TranscriptParser.userBlocks
      dsimp only
      rw [ih ((st.processToolResult rb).1), processToolResult_metadataEmitted]
    | thinking => exact ih st
    | tool_use tb => exact ih st

lemma assistantBlocks_metadataEmitted (st : TranscriptParser) (bs : List ContentBlock) :
    (TranscriptParser.assistantBlocks st bs).1.metadataEmitted = st.metadataEmitted := by
  induction bs generalizing st with
  | nil => rfl
  | cons b rest ih =>
    cases b with
    | text t => unfold TranscriptParser.assistantBlocks; dsimp only; exact ih st
    | tool_use tb => exact ih _
    | thinking => exact ih st
    | tool_result rb => exact ih st

lemma parseUserRecord_metadataEmitted (st : TranscriptParser) (r : SessionRecord) :
    (st.parseUserRecord r).1.metadataEmitted = st.metadataEmitted := by
  unfold TranscriptParser.parseUserRecord
  repeat' split
  all_goals try rfl
  all_goals
    (rename_i heq hsnd
     have h2 := congrArg (fun x => x.1.metadataEmitted) heq
     dsimp only at h2
     rw [userBlocks_metadataEmitted] at h2
     rw [← h2])

lemma modelChangeStep_metadataEmitted (st : TranscriptParser) (mo : Option String) :
    (st.modelChangeStep mo).1.metadataEmitted = st.metadataEmitted := by
  unfold TranscriptParser.modelChangeStep
  repeat' split
  all_goals rfl

lemma usageStep_metadataEmitted (st : TranscriptParser) (uo : Option TokenUsage) :
    (st.usageStep uo).metadataEmitted = st.metadataEmitted := by
  unfold TranscriptParser.usageStep
  repeat' split
  all_goals rfl

lemma modelChangeStep_currentModel_unchanged (st : TranscriptParser) :
    (st.modelChangeStep none).1.currentModel = st.currentModel := rfl

lemma usageStep_currentModel (st : TranscriptParser) (uo : Option TokenUsage) :
    (st.usageStep uo).currentModel = st.currentModel := by
  unfold TranscriptParser.usageStep
  repeat' split
  all_goals rfl

lemma usageStep_userMessages (st : TranscriptParser) (uo : Option TokenUsage) :
    (st.usageStep uo).stats.userMessages = st.stats.userMessages := by
  unfold TranscriptParser.usageStep
  repeat' split
  all_goals rfl

lemma parseAssistantRecord_metadataEmitted (st : TranscriptParser) (r : SessionRecord) :
    (st.parseAssistantRecord r).1.metadataEmitted = st.metadataEmitted := by
  unfold TranscriptParser.parseAssistantRecord
  repeat' split
  all_goals try rfl
  all_goals
    (try dsimp only
     try split
     all_goals simp [assistantBlocks_metadataEmitted, usageStep_metadataEmitted,
       modelChangeStep_metadataEmitted])

lemma parseQueueOperation_metadataEmitted (st : TranscriptParser) (r : SessionRecord) :
    (st.parseQueueOperation r).1.metadataEmitted = st.metadataEmitted := by
  unfold TranscriptParser.parseQueueOperation
  repeat' split
  all_goals rfl

end Transcripts

namespace Transcripts

open OpenCode

/-- Counterexample for C2: a fragmented session whose message loop produces
zero user and zero assistant turns still ends with a summary event, so the
fragmented adapter does not share the streaming finalize() suppression. -/
theorem C2_counterexample :
    formatSession dataNoTurns =
      [OCEvent.header "s1" "/d" 100 none, OCEvent.summary statsNoTurns 100] ∧
    statsNoTurns.userMessages = 0 ∧ statsNoTurns.assistantMessages = 0 := by
  refine ⟨?_, rfl, rfl⟩
  rfl

/-- Claim C2 amended: the streaming adapter's finalize() produces a summary
exactly when at least one user or assistant turn was counted; the fragmented
adapter's formatSession, by contrast, always emits a summary event, even for
a session with zero turns (see `C2_counterexample`). -/
theorem C2_amended_summary_contract :
    (∀ st : TranscriptParser,
      st.finalize = none ↔ (st.stats.userMessages = 0 ∧ st.stats.assistantMessages = 0)) ∧
    (∀ d : OpenCodeSessionData, ∃ stats,
      OCEvent.summary stats d.session.time.created ∈ formatSession d) := by
  constructor
  · intro st
    constructor
    · intro hnone
      by_contra hcond
      unfold TranscriptParser.finalize at hnone
      rw [if_neg hcond] at hnone
      exact Option.noConfusion hnone
    · intro hcond
      unfold TranscriptParser.finalize
      rw [if_pos hcond]
  · intro d
    refine ⟨(processMessages d.parts (none, OpenCodeStats.init) d.messages).1.2, ?_⟩
    unfold formatSession
    dsimp only
    simp

end Transcripts

namespace Transcripts

lemma except_map_ok {e : Except Unit (List Event)} {f : List Event → List Event}
    {evs : List Event} (h : e.map f = Except.ok evs) :
    ∃ l, e = Except.ok l ∧ evs = f l := by
  cases e with
  | error u => exact absurd h (by simp [Except.map])
  | ok l =>
    refine ⟨l, rfl, ?_⟩
    have h2 : (Except.ok (f l) : Except Unit (List Event)) = Except.ok evs := by
      simpa [Except.map] using h
    injection h2 with h3
    exact h3.symm

/-- Counterexample for C9: a session consisting of one meta user record has
zero user and zero assistant turns, yet the streaming pipeline still produces
output — the metadata block event — before finalize() suppresses the summary. -/
theorem C9_counterexample :
    (runLines TranscriptParser.init [Line.record recMetaOnly]).2.1 =
      [Event.metadata (SessionRecord.recordMetadata recMetaOnly)] ∧
    (runLines TranscriptParser.init [Line.record recMetaOnly]).1.stats.userMessages = 0 ∧
    (runLines TranscriptParser.init [Line.record recMetaOnly]).1.stats.assistantMessages = 0 ∧
    (runLines TranscriptParser.init [Line.record recMetaOnly]).1.finalize = none := by
  refine ⟨rfl, rfl, rfl, rfl⟩

/-- Claim C9 amended: for an empty session finalize() emits no summary, but
the streaming pipeline does not stay silent: the very first structured record
always emits the metadata block (its events, when the record is processed
without an exception, start with the metadata event), so a zero-turn session
still produces a metadata block in the output (see `C9_counterexample`). -/
theorem C9_amended_empty_session :
    (∀ st : TranscriptParser, st.stats.userMessages = 0 → st.stats.assistantMessages = 0 →
      st.finalize = none) ∧
    (∀ r : SessionRecord,
      (TranscriptParser.init.parse (Line.record r)).1.metadataEmitted = true) ∧
    (∀ (r : SessionRecord) (st' : TranscriptParser) (evs : List Event),
      TranscriptParser.init.parse (Line.record r) = (st', Except.ok evs) →
      ∃ rest, evs = Event.metadata (SessionRecord.recordMetadata r) :: rest) := by
  refine ⟨?_, ?_, ?_⟩
  · intro st h1 h2
    unfold TranscriptParser.finalize
    rw [if_pos ⟨h1, h2⟩]
  · intro r
    unfold TranscriptParser.parse
    simp only [TranscriptParser.init, TranscriptParser.captureMetadata,
      TranscriptParser.emitMetadataStep]
    try dsimp only
    by_cases h1 : r.type = some "user"
    · rw [if_pos h1]
      try dsimp only
      rw [parseUserRecord_metadataEmitted]
      simp
    · rw [if_neg h1]
      by_cases h2 : r.type = some "assistant"
      · rw [if_pos h2]
        try dsimp only
        rw [parseAssistantRecord_metadataEmitted]
        simp
      · rw [if_neg h2]
        by_cases h3 : r.type = some "queue-operation"
        · rw [if_pos h3]
          try dsimp only
          rw [parseQueueOperation_metadataEmitted]
          simp
        · rw [if_neg h3]
          simp
  · intro r st' evs h
    unfold TranscriptParser.parse at h
    simp only [TranscriptParser.init, TranscriptParser.captureMetadata,
      TranscriptParser.emitMetadataStep] at h
    try dsimp only at h
    by_cases h1 : r.type = some "user"
    · rw [if_pos h1] at h
      have h2 := congrArg Prod.snd h
      dsimp only at h2
      obtain ⟨l, _, hevs⟩ := except_map_ok h2
      exact ⟨l, hevs⟩
    · rw [if_neg h1] at h
      by_cases h2 : r.type = some "assistant"
      · rw [if_pos h2] at h
        have h3 := congrArg Prod.snd h
        dsimp only at h3
        obtain ⟨l, _, hevs⟩ := except_map_ok h3
        exact ⟨l, hevs⟩
      · rw [if_neg h2] at h
        by_cases h3 : r.type = some "queue-operation"
        · rw [if_pos h3] at h
          have h4 := congrArg Prod.snd h
          dsimp only at h4
          injection h4 with h5
          exact ⟨_, h5.symm⟩
        · rw [if_neg h3] at h
          have h4 := congrArg Prod.snd h
          dsimp only at h4
          injection h4 with h5
          exact ⟨[], h5.symm⟩

/-- Witness for the amended C9: the meta-only record yields a metadata event
first and no summary. -/
theorem C9_amended_empty_session_witness :
    ((runLines TranscriptParser.init [Line.record recMetaOnly]).1.finalize = none) ∧
    (∃ rest, [Event.metadata (SessionRecord.recordMetadata recMetaOnly)] =
      Event.metadata (SessionRecord.recordMetadata recMetaOnly) :: rest) :=
  ⟨C9_amended_empty_session.1 _ rfl rfl,
   C9_amended_empty_session.2.2 recMetaOnly
     (TranscriptParser.init.parse (Line.record recMetaOnly)).1
     [Event.metadata (SessionRecord.recordMetadata recMetaOnly)] rfl⟩

end Transcripts

namespace Transcripts

open OpenCode

lemma assistantBlocks_no_modelChange (st : TranscriptParser) (bs : List ContentBlock)
    (x : String) : Event.modelChange x ∉ (TranscriptParser.assistantBlocks st bs).2.1 := by
  induction bs generalizing st with
  | nil => simp [TranscriptParser.assistantBlocks]
  | cons b rest ih =>
    cases b with
    | text t =>
      unfold TranscriptParser.assistantBlocks
      dsimp only
      intro hmem
      rcases List.mem_cons.mp hmem with h | h
      · exact Event.noConfusion h
      · exact ih st h
    | tool_use tb => exact ih _
    | thinking => exact ih st
    | tool_result rb => exact ih st

lemma assistantBlocks_currentModel (st : TranscriptParser) (bs : List ContentBlock) :
    (TranscriptParser.assistantBlocks st bs).1.currentModel = st.currentModel := by
  induction bs generalizing st with
  | nil => rfl
  | cons b rest ih =>
    cases b with
    | text t => unfold TranscriptParser.assistantBlocks; dsimp only; exact ih st
    | tool_use tb => exact ih _
    | thinking => exact ih st
    | tool_result rb => exact ih st

lemma userPartStep_no_model (stats : OpenCodeStats) (p : OpenCodePart) (x : String) :
    OCEvent.model x ∉ (userPartStep stats p).2 := by
  unfold userPartStep
  intro hmem
  repeat' split at hmem
  all_goals by_cases ht : (p.text.getD "").trim = "" <;> simp_all

lemma userParts_no_model (stats : OpenCodeStats) (ps : List OpenCodePart) (x : String) :
    OCEvent.model x ∉ (userParts stats ps).2 := by
  induction ps generalizing stats with
  | nil => simp [userParts]
  | cons p rest ih =>
    unfold userParts
    dsimp only
    intro hmem
    rcases List.mem_append.mp hmem with h | h
    · exact userPartStep_no_model stats p x h
    · exact ih _ h

lemma assistantPartStep_no_model (stats : OpenCodeStats) (p : OpenCodePart) (x : String) :
    OCEvent.model x ∉ (assistantPartStep stats p).2 := by
  unfold assistantPartStep
  repeat' split
  all_goals simp

lemma assistantParts_no_model (stats : OpenCodeStats) (ps : List OpenCodePart) (x : String) :
    OCEvent.model x ∉ (assistantParts stats ps).2 := by
  induction ps generalizing stats with
  | nil => simp [assistantParts]
  | cons p rest ih =>
    unfold assistantParts
    dsimp only
    intro hmem
    rcases List.mem_append.mp hmem with h | h
    · exact assistantPartStep_no_model stats p x h
    · exact ih _ h

end Transcripts

namespace Transcripts

open OpenCode

lemma modelChangeStep_mem (st : TranscriptParser) (mo : Option String) (x : String) :
    Event.modelChange x ∈ (st.modelChangeStep mo).2 ↔
      (mo = some x ∧ x ≠ "" ∧ x ≠ "<synthetic>" ∧ some x ≠ st.currentModel) := by
  unfold TranscriptParser.modelChangeStep
  cases mo with
  | none => simp
  | some x0 =>
    dsimp only
    by_cases hc : x0 ≠ "" ∧ x0 ≠ "<synthetic>" ∧ some x0 ≠ st.currentModel
    · rw [if_pos hc]
      constructor
      · intro hmem
        have hx : x = x0 := Event.modelChange.inj (List.mem_singleton.mp hmem)
        subst hx
        exact ⟨rfl, hc.1, hc.2.1, hc.2.2⟩
      · rintro ⟨h1, -, -, -⟩
        have hx : x0 = x := Option.some.inj h1
        subst hx
        exact List.mem_singleton.mpr rfl
    · rw [if_neg hc]
      constructor
      · intro hmem; exact absurd hmem (List.not_mem_nil _)
      · rintro ⟨h1, h2, h3, h4⟩
        have hx : x0 = x := Option.some.inj h1
        subst hx
        exact absurd ⟨h2, h3, h4⟩ hc

lemma modelChangeStep_cm_of_mem (st : TranscriptParser) (mo : Option String) (x : String)
    (h : Event.modelChange x ∈ (st.modelChangeStep mo).2) :
    (st.modelChangeStep mo).1.currentModel = some x := by
  unfold TranscriptParser.modelChangeStep at *
  cases mo with
  | none => exact absurd h (List.not_mem_nil _)
  | some x0 =>
    dsimp only at h ⊢
    by_cases hc : x0 ≠ "" ∧ x0 ≠ "<synthetic>" ∧ some x0 ≠ st.currentModel
    · rw [if_pos hc] at h ⊢
      have hx : x = x0 := Event.modelChange.inj (List.mem_singleton.mp h)
      subst hx
      rfl
    · rw [if_neg hc] at h
      exact absurd h (List.not_mem_nil _)

lemma modelChangeStep_cm_of_not_mem (st : TranscriptParser) (mo : Option String)
    (h : ∀ x, Event.modelChange x ∉ (st.modelChangeStep mo).2) :
    (st.modelChangeStep mo).1.currentModel = st.currentModel := by
  unfold TranscriptParser.modelChangeStep at *
  cases mo with
  | none => rfl
  | some x0 =>
    dsimp only at h ⊢
    by_cases hc : x0 ≠ "" ∧ x0 ≠ "<synthetic>" ∧ some x0 ≠ st.currentModel
    · rw [if_pos hc] at h
      exact absurd (List.mem_singleton.mpr rfl) (h x0)
    · rw [if_neg hc]

lemma modelEvents_mem (cm : Option String) (mid : Option String) (x : String) :
    OCEvent.model x ∈ (modelEvents cm mid).2 ↔
      (mid = some x ∧ x ≠ "" ∧ some x ≠ cm) := by
  unfold modelEvents
  cases mid with
  | none => simp
  | some x0 =>
    dsimp only
    by_cases hc : x0 ≠ "" ∧ some x0 ≠ cm
    · rw [if_pos hc]
      constructor
      · intro hmem
        have hx : x = x0 := OCEvent.model.inj (List.mem_singleton.mp hmem)
        subst hx
        exact ⟨rfl, hc.1, hc.2⟩
      · rintro ⟨h1, -, -⟩
        have hx : x0 = x := Option.some.inj h1
        subst hx
        exact List.mem_singleton.mpr rfl
    · rw [if_neg hc]
      constructor
      · intro hmem; exact absurd hmem (List.not_mem_nil _)
      · rintro ⟨h1, h2, h3⟩
        have hx : x0 = x := Option.some.inj h1
        subst hx
        exact absurd ⟨h2, h3⟩ hc

end Transcripts

namespace Transcripts

open OpenCode

/-- Counterexample for C5: in the fragmented adapter the streaming sentinel
model id "<synthetic>" does trigger a model-change line, because that adapter
has no sentinel exclusion. -/
theorem C5_counterexample :
    OCEvent.model "<synthetic>" ∈ formatSession dataSyn ∧
    msgSyn.modelID = some "<synthetic>" := by
  refine ⟨?_, rfl⟩
  decide

/-- Claim C5 amended: in the streaming adapter a ModelChange is emitted
exactly when a present, non-empty model id that differs from the previously
observed one and is not the "no model" sentinel is observed (and the observed
id becomes the new current model, so a repeated observation emits nothing);
in the fragmented adapter the model line is emitted exactly when a non-empty
model id differs from the previous one, with no sentinel exclusion (see
`C5_counterexample`). -/
theorem C5_amended_model_change :
    (∀ (st : TranscriptParser) (r : SessionRecord) (m : Message),
      r.message = some m → m.role = some "assistant" → m.content ≠ MessageContent.undef →
      ∃ st' evs, st.parseAssistantRecord r = (st', Except.ok evs) ∧
        (∀ x, Event.modelChange x ∈ evs ↔
          (m.model = some x ∧ x ≠ "" ∧ x ≠ "<synthetic>" ∧ some x ≠ st.currentModel)) ∧
        (∀ x, Event.modelChange x ∈ evs → st'.currentModel = some x) ∧
        ((∀ x, Event.modelChange x ∉ evs) → st'.currentModel = st.currentModel)) ∧
    (∀ (parts : List (String × List OpenCodePart)) (cm : Option String)
        (stats : OpenCodeStats) (msg : OpenCodeMessage) (x : String),
      OCEvent.model x ∈ (processMessage parts cm stats msg).2 ↔
        (msg.modelID = some x ∧ x ≠ "" ∧ some x ≠ cm)) := by
  constructor
  · intro st r m hm hrole hc
    unfold TranscriptParser.parseAssistantRecord
    rw [hm]
    dsimp only
    rw [if_pos hrole]
    cases hcc : m.content with
    | undef => exact absurd hcc hc
    | ofString s =>
      refine ⟨_, _, rfl, ?_, ?_, ?_⟩
      · intro x
        exact modelChangeStep_mem st m.model x
      · intro x hmem
        rw [usageStep_currentModel]
        exact modelChangeStep_cm_of_mem st m.model x hmem
      · intro hno
        rw [usageStep_currentModel]
        exact modelChangeStep_cm_of_not_mem st m.model hno
    | ofBlocks bs =>
      dsimp only
      split
      all_goals refine ⟨_, _, rfl, ?_, ?_, ?_⟩
      all_goals try
        (intro x
         rw [List.mem_append]
         constructor
         · intro h
           rcases h with h | h
           · exact (modelChangeStep_mem st m.model x).mp h
           · exact absurd h (assistantBlocks_no_modelChange _ _ _)
         · intro h
           exact Or.inl ((modelChangeStep_mem st m.model x).mpr h))
      all_goals try
        (intro x hmem
         rcases List.mem_append.mp hmem with h | h
         · have h2 := modelChangeStep_cm_of_mem st m.model x h
           simp [assistantBlocks_currentModel, usageStep_currentModel, h2]
         · exact absurd h (assistantBlocks_no_modelChange _ _ _))
      all_goals
        (intro hno
         have h2 := modelChangeStep_cm_of_not_mem st m.model
           (fun x hx => hno x (List.mem_append.mpr (Or.inl hx)))
         simp [assistantBlocks_currentModel, usageStep_currentModel, h2])
  · intro parts cm stats msg x
    unfold processMessage
    dsimp only
    by_cases hu : msg.role = "user"
    · rw [if_pos hu]
      dsimp only
      rw [List.mem_append]
      constructor
      · intro h
        rcases h with h | h
        · exact (modelEvents_mem cm msg.modelID x).mp h
        · exact absurd h (userParts_no_model _ _ _)
      · intro h
        exact Or.inl ((modelEvents_mem cm msg.modelID x).mpr h)
    · rw [if_neg hu]
      by_cases ha : msg.role = "assistant"
      · rw [if_pos ha]
        dsimp only
        rw [List.mem_append]
        constructor
        · intro h
          rcases h with h | h
          · exact (modelEvents_mem cm msg.modelID x).mp h
          · exact absurd h (assistantParts_no_model _ _ _)
        · intro h
          exact Or.inl ((modelEvents_mem cm msg.modelID x).mpr h)
      · rw [if_neg ha]
        exact modelEvents_mem cm msg.modelID x

/-- Witness for the amended C5: a first observation of model m-a emits a
ModelChange and records it as the current model. -/
theorem C5_amended_model_change_witness :
    recModelA.message = some { role := some "assistant", content := MessageContent.ofBlocks [ContentBlock.text "hi"], model := some "m-a", usage := none } ∧
    (∃ st' evs, TranscriptParser.init.parseAssistantRecord recModelA = (st', Except.ok evs) ∧
      Event.modelChange "m-a" ∈ evs ∧ st'.currentModel = some "m-a") := by
  refine ⟨rfl, ?_⟩
  obtain ⟨st', evs, heq, hiff, hcm, -⟩ :=
    C5_amended_model_change.1 TranscriptParser.init recModelA
      { role := some "assistant", content := MessageContent.ofBlocks [ContentBlock.text "hi"], model := some "m-a", usage := none } rfl rfl (by decide)
  have hmem : Event.modelChange "m-a" ∈ evs := by
    rw [hiff "m-a"]
    refine ⟨rfl, by decide, by decide, by decide⟩
  exact ⟨st', evs, heq, hmem, hcm "m-a" hmem⟩

end Transcripts

namespace Transcripts

lemma emitMetadataStep_count (st : TranscriptParser) (c : String) :
    countOutcomes c st.emitMetadataStep.2 = 0 := by
  unfold TranscriptParser.emitMetadataStep
  repeat' split
  all_goals rfl

lemma modelChangeStep_count (st : TranscriptParser) (mo : Option String) (c : String) :
    countOutcomes c (st.modelChangeStep mo).2 = 0 := by
  unfold TranscriptParser.modelChangeStep
  repeat' split
  all_goals rfl

lemma processToolResult_count_ne (st : TranscriptParser) (b : ToolResultBlock) (c : String)
    (h : (b.tool_use_id == c) = false) :
    countOutcomes c (st.processToolResult b).2 = 0 := by
  unfold TranscriptParser.processToolResult
  rcases hm : mapGet st.pendingTools b.tool_use_id with _ | p
  · rfl
  · dsimp only
    simp [countOutcomes, isOutcomeFor, h]

lemma userBlocks_count (st : TranscriptParser) (bs : List ContentBlock) (c : String)
    (h : ∀ b ∈ bs, blockHasResultFor c b = false) :
    countOutcomes c (TranscriptParser.userBlocks st bs).2.1 = 0 := by
  induction bs generalizing st with
  | nil => rfl
  | cons b rest ih =>
    have hrest : ∀ x ∈ rest, blockHasResultFor c x = false :=
      fun x hx => h x (List.mem_cons_of_mem _ hx)
    cases b with
    | text t =>
      unfold TranscriptParser.userBlocks
      split
      · exact ih st hrest
      · dsimp only
        rw [countOutcomes_cons_other c (Event.user t) _ rfl]
        exact ih st hrest
    | tool_use tb => exact ih st hrest
    | thinking => exact ih st hrest
    | tool_result rb =>
      have hb : blockHasResultFor c (ContentBlock.tool_result rb) = false :=
        h _ (List.mem_cons_self _ _)
      unfold TranscriptParser.userBlocks
      dsimp only
      rw [countOutcomes_append]
      rw [processToolResult_count_ne st rb c (by simpa [blockHasResultFor] using hb)]
      rw [ih _ hrest]

lemma assistantBlocks_count (st : TranscriptParser) (bs : List ContentBlock) (c : String) :
    countOutcomes c (TranscriptParser.assistantBlocks st bs).2.1 = 0 := by
  induction bs generalizing st with
  | nil => rfl
  | cons b rest ih =>
    cases b with
    | text t =>
      unfold TranscriptParser.assistantBlocks
      dsimp only
      rw [countOutcomes_cons_other c (Event.assistant t) _ rfl]
      exact ih st
    | tool_use tb => exact ih _
    | thinking => exact ih st
    | tool_result rb => exact ih st

lemma parseUserRecord_count (st : TranscriptParser) (r : SessionRecord) (c : String)
    (h : lineHasResultFor c (Line.record r) = false) (l0 : List Event)
    (heq : (st.parseUserRecord r).2 = Except.ok l0) : countOutcomes c l0 = 0 := by
  unfold TranscriptParser.parseUserRecord at heq
  by_cases hMeta : r.isMeta
  · rw [if_pos hMeta] at heq
    dsimp only at heq
    injection heq with h2
    rw [← h2]; rfl
  · rw [if_neg hMeta] at heq
    cases hmsg : r.message with
    | none => rw [hmsg] at heq; exact absurd heq (by simp)
    | some m =>
      rw [hmsg] at heq
      dsimp only at heq
      by_cases hrole : m.role = some "user"
      · rw [if_pos hrole] at heq
        cases hcc : m.content with
        | ofString s =>
          rw [hcc] at heq
          dsimp only at heq
          split at heq
          · injection heq with h2
            rw [← h2]; rfl
          · injection heq with h2
            rw [← h2]; rfl
        | ofBlocks bs =>
          rw [hcc] at heq
          dsimp only at heq
          have hbs : ∀ b ∈ bs, blockHasResultFor c b = false := by
            unfold lineHasResultFor at h
            dsimp only at h
            rw [hmsg] at h
            dsimp only at h
            rw [hcc] at h
            dsimp only at h
            intro b hb
            by_contra hcon
            have hany : bs.any (blockHasResultFor c) = true :=
              List.any_eq_true.mpr ⟨b, hb, by simpa using hcon⟩
            rw [hany] at h
            exact Bool.noConfusion h
          split at heq
          · injection heq with h2
            rw [← h2]
            exact userBlocks_count st bs c hbs
          · injection heq with h2
            rw [← h2]
            exact userBlocks_count st bs c hbs
        | undef =>
          rw [hcc] at heq
          exact absurd heq (by simp)
      · rw [if_neg hrole] at heq
        dsimp only at heq
        injection heq with h2
        rw [← h2]; rfl

lemma parseAssistantRecord_count (st : TranscriptParser) (r : SessionRecord) (c : String)
    (l0 : List Event) (heq : (st.parseAssistantRecord r).2 = Except.ok l0) :
    countOutcomes c l0 = 0 := by
  unfold TranscriptParser.parseAssistantRecord at heq
  cases hmsg : r.message with
  | none => rw [hmsg] at heq; exact absurd heq (by simp)
  | some m =>
    rw [hmsg] at heq
    dsimp only at heq
    by_cases hrole : m.role = some "assistant"
    · rw [if_pos hrole] at heq
      cases hcc : m.content with
      | ofString s =>
        rw [hcc] at heq
        dsimp only at heq
        injection heq with h2
        rw [← h2]
        exact modelChangeStep_count st m.model c
      | ofBlocks bs =>
        rw [hcc] at heq
        dsimp only at heq
        split at heq
        · injection heq with h2
          rw [← h2, countOutcomes_append, modelChangeStep_count, assistantBlocks_count]
        · injection heq with h2
          rw [← h2, countOutcomes_append, modelChangeStep_count, assistantBlocks_count]
      | undef =>
        rw [hcc] at heq
        exact absurd heq (by simp)
    · rw [if_neg hrole] at heq
      dsimp only at heq
      injection heq with h2
      rw [← h2]; rfl

lemma parseQueueOperation_count (st : TranscriptParser) (r : SessionRecord) (c : String) :
    countOutcomes c (st.parseQueueOperation r).2 = 0 := by
  unfold TranscriptParser.parseQueueOperation
  repeat' split
  all_goals rfl

lemma parse_count (st : TranscriptParser) (l : Line) (c : String)
    (h : lineHasResultFor c l = false) :
    ∀ st' evs, st.parse l = (st', Except.ok evs) → countOutcomes c evs = 0 := by
  intro st' evs heq
  cases l with
  | blank =>
    have h2 := congrArg Prod.snd heq
    dsimp only [TranscriptParser.parse] at h2
    injection h2 with h3
    rw [← h3]; rfl
  | malformed =>
    have h2 := congrArg Prod.snd heq
    dsimp only [TranscriptParser.parse] at h2
    injection h2 with h3
    rw [← h3]; rfl
  | record r =>
    unfold TranscriptParser.parse at heq
    dsimp only at heq
    by_cases h1 : r.type = some "user"
    · rw [if_pos h1] at heq
      have h2 := congrArg Prod.snd heq
      dsimp only at h2
      obtain ⟨l0, hE, hevs⟩ := except_map_ok h2
      rw [hevs, countOutcomes_append, emitMetadataStep_count]
      rw [parseUserRecord_count _ r c h l0 hE]
    · rw [if_neg h1] at heq
      by_cases h2t : r.type = some "assistant"
      · rw [if_pos h2t] at heq
        have h2 := congrArg Prod.snd heq
        dsimp only at h2
        obtain ⟨l0, hE, hevs⟩ := except_map_ok h2
        rw [hevs, countOutcomes_append, emitMetadataStep_count]
        rw [parseAssistantRecord_count _ r c l0 hE]
      · rw [if_neg h2t] at heq
        by_cases h3t : r.type = some "queue-operation"
        · rw [if_pos h3t] at heq
          have h2 := congrArg Prod.snd heq
          dsimp only at h2
          injection h2 with h3
          rw [← h3, countOutcomes_append, emitMetadataStep_count,
            parseQueueOperation_count]
        · rw [if_neg h3t] at heq
          have h2 := congrArg Prod.snd heq
          dsimp only at h2
          injection h2 with h3
          rw [← h3, emitMetadataStep_count]

lemma runLines_count (st : TranscriptParser) (ls : List Line) (c : String)
    (h : ∀ l ∈ ls, lineHasResultFor c l = false) :
    countOutcomes c (runLines st ls).2.1 = 0 := by
  induction ls generalizing st with
  | nil => rfl
  | cons l rest ih =>
    have hl := h l (List.mem_cons_self _ _)
    have hrest : ∀ x ∈ rest, lineHasResultFor c x = false :=
      fun x hx => h x (List.mem_cons_of_mem _ hx)
    unfold runLines
    rcases hp : st.parse l with ⟨st1, e⟩
    cases e with
    | error u => rfl
    | ok evs =>
      dsimp only
      rw [countOutcomes_append]
      rw [parse_count st l c hl st1 evs hp]
      rw [ih st1 hrest]

end Transcripts

namespace Transcripts

lemma processToolResult_unknown (st : TranscriptParser) (b : ToolResultBlock)
    (h : mapGet st.pendingTools b.tool_use_id = none) :
    st.processToolResult b = (st, []) := by
  unfold TranscriptParser.processToolResult
  rw [h]

/-- Claim C1: a tool-use request records its call id in the correlation store
and assistant-side processing emits no ToolOutcome; a result for a pending id
emits exactly the one ToolOutcome at that moment, removes the entry, and an
identical second result emits nothing; a session whose lines carry no result
for id c emits zero ToolOutcome events for c; and finalize() depends only on
the statistics and metadata, never on the leftover pending entries, so an
unmatched request leaves no residue. -/
theorem C1_tool_outcome_exactly_once :
    (∀ (m : List (String × PendingTool)) (k : String) (v : PendingTool),
      mapGet (mapSet m k v) k = some v) ∧
    (∀ (st : TranscriptParser) (bs : List ContentBlock) (c : String),
      countOutcomes c (TranscriptParser.assistantBlocks st bs).2.1 = 0) ∧
    (∀ (st : TranscriptParser) (b : ToolResultBlock) (p : PendingTool),
      mapGet st.pendingTools b.tool_use_id = some p →
      (st.processToolResult b).2 =
        [Event.toolOutcome b.tool_use_id p.name p.input b.is_error] ∧
      mapGet (st.processToolResult b).1.pendingTools b.tool_use_id = none ∧
      ((st.processToolResult b).1.processToolResult b).2 = []) ∧
    (∀ (st : TranscriptParser) (ls : List Line) (c : String),
      (∀ l ∈ ls, lineHasResultFor c l = false) →
      countOutcomes c (runLines st ls).2.1 = 0) ∧
    (∀ st st' : TranscriptParser, st.stats = st'.stats → st.metadata = st'.metadata →
      st.finalize = st'.finalize) := by
  refine ⟨mapGet_mapSet_self, assistantBlocks_count, ?_, runLines_count, ?_⟩
  · intro st b p h
    have hpt : (st.processToolResult b).1.pendingTools = mapDel st.pendingTools b.tool_use_id := by
      unfold TranscriptParser.processToolResult
      rw [h]
    have h2 : mapGet (st.processToolResult b).1.pendingTools b.tool_use_id = none := by
      rw [hpt, mapGet_mapDel_self]
    refine ⟨?_, h2, ?_⟩
    · unfold TranscriptParser.processToolResult
      rw [h]
    · rw [processToolResult_unknown _ b h2]
  · intro st st' h1 h2
    unfold TranscriptParser.finalize
    rw [h1, h2]

/-- Witness for C1: resolving the pending Glob call c9 emits exactly one
outcome, removes the entry, and an identical second result emits nothing. -/
theorem C1_tool_outcome_exactly_once_witness :
    mapGet stPendingGlob.pendingTools "c9" =
      some { name := "Glob", input := { file_path := none } } ∧
    ((stPendingGlob.processToolResult { tool_use_id := "c9", is_error := false }).2 =
      [Event.toolOutcome "c9" "Glob" { file_path := none } false] ∧
     mapGet (stPendingGlob.processToolResult
        { tool_use_id := "c9", is_error := false }).1.pendingTools "c9" = none ∧
     ((stPendingGlob.processToolResult { tool_use_id := "c9", is_error := false }).1.processToolResult
        { tool_use_id := "c9", is_error := false }).2 = []) :=
  ⟨rfl, C1_tool_outcome_exactly_once.2.2.1 stPendingGlob
    { tool_use_id := "c9", is_error := false }
    { name := "Glob", input := { file_path := none } } rfl⟩

end Transcripts

namespace Transcripts

lemma captureMetadata_pendingTools (st : TranscriptParser) (r : SessionRecord) :
    (st.captureMetadata r).pendingTools = st.pendingTools := by
  unfold TranscriptParser.captureMetadata
  split
  all_goals rfl

lemma captureMetadata_stats (st : TranscriptParser) (r : SessionRecord) :
    (st.captureMetadata r).stats = st.stats := by
  unfold TranscriptParser.captureMetadata
  split
  all_goals rfl

lemma emitMetadataStep_pendingTools (st : TranscriptParser) :
    st.emitMetadataStep.1.pendingTools = st.pendingTools := by
  unfold TranscriptParser.emitMetadataStep
  repeat' split
  all_goals rfl

lemma emitMetadataStep_stats (st : TranscriptParser) :
    st.emitMetadataStep.1.stats = st.stats := by
  unfold TranscriptParser.emitMetadataStep
  repeat' split
  all_goals rfl

lemma parse_readRequest (st : TranscriptParser) (c p : String) :
    stepOk (st.parse (Line.record (readRequestRecord c p))) = true ∧
    (st.parse (Line.record (readRequestRecord c p))).1.pendingTools =
      mapSet st.pendingTools c { name := "Read", input := { file_path := some p } } ∧
    (st.parse (Line.record (readRequestRecord c p))).1.stats.filesRead = st.stats.filesRead ∧
    (st.parse (Line.record (readRequestRecord c p))).1.stats.userMessages =
      st.stats.userMessages := by
  refine ⟨?_, ?_, ?_, ?_⟩ <;>
  · simp only [readRequestRecord, readRequestMessage, TranscriptParser.parse,
      TranscriptParser.parseAssistantRecord, TranscriptParser.modelChangeStep,
      TranscriptParser.usageStep, TranscriptParser.assistantBlocks, stepOk]
    simp [captureMetadata_pendingTools, captureMetadata_stats,
      emitMetadataStep_pendingTools, emitMetadataStep_stats, Except.map]

end Transcripts

namespace Transcripts

lemma parse_readResult (st : TranscriptParser) (c p : String) (hp : p ≠ "")
    (h : mapGet st.pendingTools c = some { name := "Read", input := { file_path := some p } }) :
    stepOk (st.parse (Line.record (readResultRecord c))) = true ∧
    (st.parse (Line.record (readResultRecord c))).1.stats.filesRead =
      addSet st.stats.filesRead p ∧
    (st.parse (Line.record (readResultRecord c))).1.stats.userMessages =
      st.stats.userMessages + 1 := by
  have hstart : jsStartsWith "ok" "<" = false := by decide
  refine ⟨?_, ?_, ?_⟩ <;>
  · simp only [readResultRecord, readResultMessage, TranscriptParser.parse,
      TranscriptParser.parseUserRecord, TranscriptParser.userBlocks,
      TranscriptParser.processToolResult, stepOk]
    simp [captureMetadata_pendingTools, captureMetadata_stats,
      emitMetadataStep_pendingTools, emitMetadataStep_stats, Except.map, h, hp, hstart]

end Transcripts

namespace Transcripts

lemma processToolResult_error_sets (st : TranscriptParser) (b : ToolResultBlock)
    (hb : b.is_error = true) :
    (st.processToolResult b).1.stats.filesRead = st.stats.filesRead ∧
    (st.processToolResult b).1.stats.filesWritten = st.stats.filesWritten ∧
    (st.processToolResult b).1.stats.filesEdited = st.stats.filesEdited := by
  unfold TranscriptParser.processToolResult
  rcases hm : mapGet st.pendingTools b.tool_use_id with _ | p
  · exact ⟨rfl, rfl, rfl⟩
  · dsimp only
    rcases hfp : p.input.file_path with _ | fp
    · exact ⟨rfl, rfl, rfl⟩
    · dsimp only
      rw [if_neg (by simp [hb])]
      exact ⟨rfl, rfl, rfl⟩

lemma runLines_cons_error (st : TranscriptParser) (l : Line) (ls : List Line)
    (st1 : TranscriptParser) (u : Unit) (hp : st.parse l = (st1, Except.error u)) :
    runLines st (l :: ls) = (st1, [], false) := by
  unfold runLines
  rw [hp]

lemma runLines_cons_ok (st : TranscriptParser) (l : Line) (ls : List Line)
    (st1 : TranscriptParser) (evs : List Event) (hp : st.parse l = (st1, Except.ok evs)) :
    runLines st (l :: ls) =
      ((runLines st1 ls).1, evs ++ (runLines st1 ls).2.1, (runLines st1 ls).2.2) := by
  unfold runLines
  rw [hp]
  dsimp only
  cases ls <;> rfl

lemma runLines_append_ok (st : TranscriptParser) (xs ys : List Line)
    (h : (runLines st xs).2.2 = true) :
    (runLines st (xs ++ ys)).1 = (runLines (runLines st xs).1 ys).1 ∧
    (runLines st (xs ++ ys)).2.2 = (runLines (runLines st xs).1 ys).2.2 := by
  induction xs generalizing st with
  | nil => exact ⟨rfl, rfl⟩
  | cons l rest ih =>
    rw [List.cons_append]
    rcases hp : st.parse l with ⟨st1, e⟩
    cases e with
    | error u =>
      rw [runLines_cons_error st l rest st1 u hp] at h
      exact absurd h (by simp)
    | ok evs =>
      rw [runLines_cons_ok st l rest st1 evs hp] at h
      rw [runLines_cons_ok st l (rest ++ ys) st1 evs hp]
      rw [runLines_cons_ok st l rest st1 evs hp]
      dsimp only at h ⊢
      exact ih st1 h

lemma runLines_readPair (st : TranscriptParser) (c p : String) (hp : p ≠ "") :
    (runLines st (readPair c p)).2.2 = true ∧
    (runLines st (readPair c p)).1.stats.filesRead = addSet st.stats.filesRead p ∧
    (runLines st (readPair c p)).1.stats.userMessages = st.stats.userMessages + 1 := by
  obtain ⟨hok1, hpt1, hfr1, hum1⟩ := parse_readRequest st c p
  obtain ⟨st1, evs1, hE1⟩ := (stepOk_iff _).mp hok1
  have hproj1 := congrArg Prod.fst hE1
  dsimp only at hproj1
  have hm : mapGet st1.pendingTools c =
      some { name := "Read", input := { file_path := some p } } := by
    rw [← hproj1, hpt1]
    exact mapGet_mapSet_self _ _ _
  obtain ⟨hok2, hfr2, hum2⟩ := parse_readResult st1 c p hp hm
  obtain ⟨st2, evs2, hE2⟩ := (stepOk_iff _).mp hok2
  have hproj2 := congrArg Prod.fst hE2
  dsimp only at hproj2
  have hrun : runLines st (readPair c p) = (st2, evs1 ++ (evs2 ++ []), true) := by
    unfold readPair runLines
    rw [hE1]
    dsimp only
    unfold runLines
    rw [hE2]
    dsimp only
    rfl
  rw [hrun]
  refine ⟨rfl, ?_, ?_⟩
  · show st2.stats.filesRead = addSet st.stats.filesRead p
    rw [← hproj2, hfr2, ← hproj1, hfr1]
  · show st2.stats.userMessages = st.stats.userMessages + 1
    rw [← hproj2, hum2, ← hproj1, hum1]

lemma runLines_readSession (c p : String) (hp : p ≠ "") (n : Nat) :
    ∀ st : TranscriptParser,
      (runLines st (readSession c p n)).2.2 = true ∧
      (runLines st (readSession c p n)).1.stats.filesRead =
        (fun s => addSet s p)^[n] st.stats.filesRead ∧
      (runLines st (readSession c p n)).1.stats.userMessages =
        st.stats.userMessages + n := by
  induction n with
  | zero => intro st; exact ⟨rfl, rfl, rfl⟩
  | succ n ih =>
    intro st
    have hpair := runLines_readPair st c p hp
    have happ := runLines_append_ok st (readPair c p) (readSession c p n) hpair.1
    have ihs := ih (runLines st (readPair c p)).1
    unfold readSession
    refine ⟨?_, ?_, ?_⟩
    · rw [happ.2]; exact ihs.1
    · rw [happ.1, ihs.2.1, hpair.2.1, Function.iterate_succ_apply]
    · rw [happ.1, ihs.2.2, hpair.2.2]; omega

lemma addSet_self_mem (s : List String) (x : String) (h : x ∈ s) : addSet s x = s := by
  unfold addSet; rw [if_pos h]

lemma iterate_addSet_nil (p : String) (n : Nat) (h : 1 ≤ n) :
    (fun s => addSet s p)^[n] ([] : List String) = [p] := by
  cases n with
  | zero => omega
  | succ m =>
    rw [Function.iterate_succ_apply]
    have h0 : addSet ([] : List String) p = [p] := by
      unfold addSet
      rw [if_neg (List.not_mem_nil p)]
      rfl
    simp only [h0]
    exact Function.iterate_fixed
      (by show addSet [p] p = [p]
          exact addSet_self_mem [p] p (List.mem_singleton.mpr rfl)) m

/-- Claim C6: in the streaming adapter a failed tool resolution never touches
any file-touch set, and resolving the same path successfully any number
N ≥ 1 of times leaves exactly one entry for it in the files-read set of the
summary statistics (set idempotence). -/
theorem C6_file_sets_success_idempotent :
    (∀ (st : TranscriptParser) (b : ToolResultBlock), b.is_error = true →
      (st.processToolResult b).1.stats.filesRead = st.stats.filesRead ∧
      (st.processToolResult b).1.stats.filesWritten = st.stats.filesWritten ∧
      (st.processToolResult b).1.stats.filesEdited = st.stats.filesEdited) ∧
    (∀ (c p : String) (n : Nat), p ≠ "" → 1 ≤ n →
      (runLines TranscriptParser.init (readSession c p n)).1.stats.filesRead = [p] ∧
      ∃ start, (runLines TranscriptParser.init (readSession c p n)).1.finalize =
        some ((runLines TranscriptParser.init (readSession c p n)).1.stats, start)) := by
  constructor
  · exact processToolResult_error_sets
  · intro c p n hp hn
    obtain ⟨hok, hfr, hum⟩ := runLines_readSession c p hp n TranscriptParser.init
    constructor
    · rw [hfr]
      exact iterate_addSet_nil p n hn
    · have hne : ¬((runLines TranscriptParser.init (readSession c p n)).1.stats.userMessages = 0 ∧
          (runLines TranscriptParser.init (readSession c p n)).1.stats.assistantMessages = 0) := by
        intro hcon
        have h1 := hcon.1
        rw [hum] at h1
        simp [TranscriptParser.init, SessionStats.init] at h1
        omega
      refine ⟨jsOrNone ((runLines TranscriptParser.init
        (readSession c p n)).1.metadata.bind SessionMetadata.started), ?_⟩
      unfold TranscriptParser.finalize
      rw [if_neg hne]

/-- Witness for C6: two successful reads of the same path leave one entry in
the files-read set and the summary is emitted; a failed resolution leaves the
sets untouched. -/
theorem C6_file_sets_success_idempotent_witness :
    (runLines TranscriptParser.init (readSession "c1" "/a" 2)).1.stats.filesRead = ["/a"] ∧
    (stPendingGlob.processToolResult { tool_use_id := "c9", is_error := true }).1.stats.filesRead =
      stPendingGlob.stats.filesRead :=
  ⟨(C6_file_sets_success_idempotent.2 "c1" "/a" 2 (by decide) (by decide)).1,
   (C6_file_sets_success_idempotent.1 stPendingGlob
     { tool_use_id := "c9", is_error := true } rfl).1⟩

end Transcripts

namespace Transcripts

open OpenCode

lemma processMessages_cons (parts : List (String × List OpenCodePart))
    (s : Option String × OpenCodeStats) (m : OpenCodeMessage) (ms : List OpenCodeMessage) :
    processMessages parts s (m :: ms) =
      ((processMessages parts (processMessage parts s.1 s.2 m).1 ms).1,
       (processMessage parts s.1 s.2 m).2 ++
         (processMessages parts (processMessage parts s.1 s.2 m).1 ms).2) := by
  unfold processMessages
  dsimp only
  cases ms <;> rfl

lemma processMessages_append (parts : List (String × List OpenCodePart))
    (s : Option String × OpenCodeStats) (xs ys : List OpenCodeMessage) :
    (processMessages parts s (xs ++ ys)).2 =
      (processMessages parts s xs).2 ++
      (processMessages parts (processMessages parts s xs).1 ys).2 := by
  induction xs generalizing s with
  | nil => rfl
  | cons m xs ih =>
    rw [List.cons_append, processMessages_cons, processMessages_cons]
    dsimp only
    rw [ih, List.append_assoc]

/-- Claim C7: the fragmented join sorts the enumerated message files into
ascending creation-time order (a permutation, for every enumeration order),
strictly earlier-created messages end up at strictly smaller indices, and the
emit phase replays the message list in exactly that list order: the events of
a prefix of messages precede the events of the remaining messages, inside the
header/body/summary decomposition of formatSession. -/
theorem C7_join_sorted_replay :
    (∀ raw : List OpenCodeMessage, (loadMessages raw).Perm raw) ∧
    (∀ raw : List OpenCodeMessage, List.Sorted msgLE (loadMessages raw)) ∧
    (∀ (raw : List OpenCodeMessage) (i j : Fin (loadMessages raw).length),
      ((loadMessages raw).get i).time.created < ((loadMessages raw).get j).time.created →
      (i : Nat) < (j : Nat)) ∧
    (∀ (parts : List (String × List OpenCodePart)) (s : Option String × OpenCodeStats)
        (xs ys : List OpenCodeMessage),
      (processMessages parts s (xs ++ ys)).2 =
        (processMessages parts s xs).2 ++
        (processMessages parts (processMessages parts s xs).1 ys).2) ∧
    (∀ d : OpenCodeSessionData,
      formatSession d = headerEvents d.session ++
        (processMessages d.parts (none, OpenCodeStats.init) d.messages).2 ++
        [OCEvent.summary (processMessages d.parts (none, OpenCodeStats.init) d.messages).1.2
          d.session.time.created]) := by
  haveI hTot : IsTotal OpenCodeMessage msgLE :=
    ⟨fun a b => Nat.le_total a.time.created b.time.created⟩
  haveI hTrans : IsTrans OpenCodeMessage msgLE :=
    ⟨fun a b c hab hbc => Nat.le_trans hab hbc⟩
  have hsorted : ∀ raw : List OpenCodeMessage, List.Sorted msgLE (loadMessages raw) :=
    fun raw => List.sorted_insertionSort msgLE raw
  refine ⟨fun raw => List.perm_insertionSort msgLE raw, hsorted, ?_, processMessages_append, ?_⟩
  · intro raw i j hlt
    by_contra hij
    push_neg at hij
    rcases Nat.lt_or_ge (j : Nat) (i : Nat) with h | h
    · have hji : j < i := h
      have hle := (List.pairwise_iff_get.mp (hsorted raw)) j i hji
      exact absurd hlt (by simp only [msgLE] at hle; omega)
    · have : (i : Nat) = (j : Nat) := Nat.le_antisymm h hij
      have : i = j := Fin.ext this
      subst this
      exact Nat.lt_irrefl _ hlt
  · intro d
    rfl

/-- Witness for C7: enumerating the late message before the early one still
yields the early message at index 0, and the strict-order implication holds
at indices 0 and 1. -/
theorem C7_join_sorted_replay_witness :
    loadMessages [msgLate, msgEarly] = [msgEarly, msgLate] ∧
    ((loadMessages [msgLate, msgEarly]).get ⟨0, by decide⟩).time.created <
      ((loadMessages [msgLate, msgEarly]).get ⟨1, by decide⟩).time.created ∧
    (0 : Nat) < 1 := by
  refine ⟨by decide, by decide, ?_⟩
  exact C7_join_sorted_replay.2.2.1 [msgLate, msgEarly] ⟨0, by decide⟩ ⟨1, by decide⟩ (by decide)

/-- Claim C3 amended: a line that fails to parse as a structured record (or is
blank) yields no events and no exception, and a whole stream of such lines
runs to completion with the parser state untouched — parsing failures are
never fatal and the adapter continues with the next line.  The original
blanket guarantee is false: parse() throws a TypeError past the adapter on
structurally valid records of unexpected runtime shape — a user/assistant
record with no message object (`C3_counterexample`, reading `.role` of
undefined at parse.ts 93-94), and likewise an array content whose text block
lacks its `text` string (`block.text.startsWith` at parse.ts 111, and
`text.trim` inside formatAssistantText for the assistant loop); only the
JSON.parse call itself sits inside try/catch. -/
theorem C3_amended_no_throw :
    (∀ st : TranscriptParser, st.parse Line.blank = (st, Except.ok [])) ∧
    (∀ st : TranscriptParser, st.parse Line.malformed = (st, Except.ok [])) ∧
    (∀ (st : TranscriptParser) (ls : List Line),
      (∀ l ∈ ls, l = Line.malformed ∨ l = Line.blank) →
      runLines st ls = (st, [], true)) := by
  refine ⟨fun _ => rfl, fun _ => rfl, ?_⟩
  intro st ls
  induction ls with
  | nil => intro _; rfl
  | cons l rest ih =>
    intro h
    have hstep : st.parse l = (st, Except.ok []) := by
      rcases h l (List.mem_cons_self _ _) with rfl | rfl <;> rfl
    rw [runLines_cons_ok st l rest st [] hstep,
      ih (fun x hx => h x (List.mem_cons_of_mem _ hx))]
    rfl

/-- Witness for the amended C3: a malformed line followed by a blank line
leaves a fresh parser untouched, with no events and no exception. -/
theorem C3_amended_no_throw_witness :
    (∀ l ∈ [Line.malformed, Line.blank], l = Line.malformed ∨ l = Line.blank) ∧
    runLines TranscriptParser.init [Line.malformed, Line.blank] =
      (TranscriptParser.init, [], true) :=
  ⟨by decide, C3_amended_no_throw.2.2 TranscriptParser.init
    [Line.malformed, Line.blank] (by decide)⟩

end Transcripts
